import Mathlib

/-!
Verification of the per-namespace health-watching and retaliation control
loop of k8s-ephemeral-resources (`src/types.go` and `src/main.go`).

Shallow embedding conventions:
* Go `map[string]T` is modelled as an association list `List (String × T)`
  with unique keys; `mapLookup`, `mapInsert` and `mapErase` mirror Go map
  indexing, assignment and `delete`.
* `time.Time` and `time.Duration` are modelled as `Int`; every Go call to
  `time.Now()` becomes an explicit `now : Int` parameter.
* The injected pod-deletion capability (`killPod`) and the Prometheus
  counter are modelled by returning the list of kill invocations and by a
  `Nat` counter field; the stop channel and the goroutine machinery are
  outside the sequential model.
-/

/-- Pod phase, mirroring `v1.PodPhase` (Pending/Running/Succeeded/Failed/Unknown). -/
inductive PodPhase where
  | Pending
  | Running
  | Succeeded
  | Failed
  | Unknown
deriving DecidableEq, Repr

/-- Condition status, mirroring `v1.ConditionStatus` (a boolean tristate). -/
inductive ConditionStatus where
  | ConditionTrue
  | ConditionFalse
  | ConditionUnknown
deriving DecidableEq, Repr

/-- One pod condition, mirroring the fields of `v1.PodCondition` that the
watcher reads or compares (`cmp.Equal` compares them all; the remaining
string/time fields are folded into `condType`-like opaque data). -/
structure PodCondition where
  condType : String
  status : ConditionStatus
  lastProbeTime : Int
  lastTransitionTime : Int
  reason : String
  message : String
deriving DecidableEq, Repr

/-- Pod status, mirroring the fields of `v1.PodStatus` the watcher uses:
`Phase` and `Conditions`. -/
structure PodStatus where
  phase : PodPhase
  conditions : List PodCondition
deriving DecidableEq, Repr

/-- Go map lookup `m[k]` returning `none` when the key is absent. -/
def mapLookup {α : Type} (k : String) : List (String × α) → Option α
  | [] => none
  | (k', v) :: rest => if k' = k then some v else mapLookup k rest

/-- Go map assignment `m[k] = v`: replace the binding if the key exists,
otherwise add it. -/
def mapInsert {α : Type} (k : String) (v : α) : List (String × α) → List (String × α)
  | [] => [(k, v)]
  | (k', v') :: rest => if k' = k then (k, v) :: rest else (k', v') :: mapInsert k v rest

/-- Go `delete(m, k)`: remove the binding for `k` (keys are unique). -/
def mapErase {α : Type} (k : String) : List (String × α) → List (String × α)
  | [] => []
  | (k', v') :: rest => if k' = k then rest else (k', v') :: mapErase k rest

/-- The key set of an association list. -/
def keySet {α : Type} (m : List (String × α)) : Finset String :=
  (m.map Prod.fst).toFinset

/-- Unique-keys well-formedness of a Go-map model. -/
def MapWF {α : Type} (m : List (String × α)) : Prop :=
  (m.map Prod.fst).Nodup

instance mapWF_decidable {α : Type} (m : List (String × α)) : Decidable (MapWF m) :=
  inferInstanceAs (Decidable (m.map Prod.fst).Nodup)

theorem mapLookup_eq_none {α : Type} (k : String) (m : List (String × α)) :
    mapLookup k m = none ↔ k ∉ m.map Prod.fst := by
  induction m with
  | nil => simp [mapLookup]
  | cons hd tl ih =>
    obtain ⟨k', v⟩ := hd
    by_cases h : k' = k
    · subst h
      simp [mapLookup]
    · have h' : k ≠ k' := Ne.symm h
      simp [mapLookup, h, ih, h']

theorem mapLookup_isSome {α : Type} (k : String) (m : List (String × α)) :
    (mapLookup k m).isSome = true ↔ k ∈ m.map Prod.fst := by
  have h := mapLookup_eq_none k m
  cases hm : mapLookup k m <;> simp_all

theorem mapLookup_mem {α : Type} {k : String} {v : α} {m : List (String × α)}
    (h : mapLookup k m = some v) : (k, v) ∈ m := by
  induction m with
  | nil => simp [mapLookup] at h
  | cons hd tl ih =>
    obtain ⟨k', v'⟩ := hd
    by_cases hk : k' = k
    · subst hk
      simp [mapLookup] at h
      simp [h]
    · simp [mapLookup, hk] at h
      simp [ih h]

theorem mem_mapLookup {α : Type} {k : String} {v : α} {m : List (String × α)}
    (hwf : MapWF m) (h : (k, v) ∈ m) : mapLookup k m = some v := by
  induction m with
  | nil => simp at h
  | cons hd tl ih =>
    obtain ⟨k', v'⟩ := hd
    simp only [MapWF, List.map_cons, List.nodup_cons] at hwf
    rcases List.mem_cons.mp h with heq | htl
    · simp only [Prod.mk.injEq] at heq
      obtain ⟨rfl, rfl⟩ := heq
      simp [mapLookup]
    · have hk : k' ≠ k := by
        rintro rfl
        exact hwf.1 (List.mem_map_of_mem Prod.fst htl)
      simp [mapLookup, hk, ih hwf.2 htl]

theorem mapInsert_of_lookup_none {α : Type} {k : String} (v : α) {m : List (String × α)}
    (h : mapLookup k m = none) : mapInsert k v m = m ++ [(k, v)] := by
  induction m with
  | nil => rfl
  | cons hd tl ih =>
    obtain ⟨k', v'⟩ := hd
    by_cases hk : k' = k
    · simp [mapLookup, hk] at h
    · simp [mapLookup, hk] at h
      simp [mapInsert, hk, ih h]

theorem mapLookup_mapInsert_self {α : Type} (k : String) (v : α) (m : List (String × α)) :
    mapLookup k (mapInsert k v m) = some v := by
  induction m with
  | nil => simp [mapInsert, mapLookup]
  | cons hd tl ih =>
    obtain ⟨k', v'⟩ := hd
    by_cases hk : k' = k <;> simp [mapInsert, hk, mapLookup, ih]

theorem mapLookup_mapInsert_ne {α : Type} {k k' : String} (hne : k' ≠ k) (v : α)
    (m : List (String × α)) : mapLookup k' (mapInsert k v m) = mapLookup k' m := by
  have hkk : k ≠ k' := Ne.symm hne
  induction m with
  | nil => simp [mapInsert, mapLookup, hkk]
  | cons hd tl ih =>
    obtain ⟨k'', v''⟩ := hd
    by_cases hk : k'' = k
    · subst hk
      simp [mapInsert, mapLookup, hkk]
    · simp [mapInsert, hk, mapLookup, ih]

theorem mapErase_of_lookup_none {α : Type} {k : String} {m : List (String × α)}
    (h : mapLookup k m = none) : mapErase k m = m := by
  induction m with
  | nil => rfl
  | cons hd tl ih =>
    obtain ⟨k', v'⟩ := hd
    by_cases hk : k' = k
    · simp [mapLookup, hk] at h
    · simp [mapLookup, hk] at h
      simp [mapErase, hk, ih h]

theorem mapInsert_keys {α : Type} (k : String) (v : α) (m : List (String × α)) :
    (mapInsert k v m).map Prod.fst = if k ∈ m.map Prod.fst then m.map Prod.fst
      else m.map Prod.fst ++ [k] := by
  induction m with
  | nil => simp [mapInsert]
  | cons hd tl ih =>
    obtain ⟨k', v'⟩ := hd
    by_cases hk : k' = k
    · subst hk
      simp [mapInsert]
    · have hk' : k ≠ k' := Ne.symm hk
      simp only [mapInsert, if_neg hk, List.map_cons, ih]
      by_cases hmem : k ∈ tl.map Prod.fst
      · simp [hmem, hk']
      · simp [hmem, hk']

theorem mapInsert_wf {α : Type} (k : String) (v : α) {m : List (String × α)}
    (hwf : MapWF m) : MapWF (mapInsert k v m) := by
  unfold MapWF at hwf ⊢
  rw [mapInsert_keys]
  by_cases hmem : k ∈ m.map Prod.fst
  · simpa [hmem]
  · have hdisj : (m.map Prod.fst).Disjoint [k] := by
      intro a ha hb
      simp only [List.mem_singleton] at hb
      subst hb
      exact hmem ha
    simp only [if_neg hmem]
    exact List.Nodup.append hwf (List.nodup_singleton k) hdisj

theorem mapErase_keys_sublist {α : Type} (k : String) (m : List (String × α)) :
    List.Sublist ((mapErase k m).map Prod.fst) (m.map Prod.fst) := by
  induction m with
  | nil => simp [mapErase]
  | cons hd tl ih =>
    obtain ⟨k', v'⟩ := hd
    by_cases hk : k' = k
    · simp only [mapErase, if_pos hk, List.map_cons]
      exact List.Sublist.cons k' (List.Sublist.refl _)
    · simp only [mapErase, if_neg hk, List.map_cons]
      exact List.Sublist.cons₂ k' ih

theorem mapErase_wf {α : Type} (k : String) {m : List (String × α)}
    (hwf : MapWF m) : MapWF (mapErase k m) :=
  List.Nodup.sublist (mapErase_keys_sublist k m) hwf

/-- Cluster health, mirroring `ClusterHealth` with constants `UNHEALTHY` and
`HEALTHY` (types.go:101-107). -/
inductive ClusterHealth where
  | UNHEALTHY
  | HEALTHY
deriving DecidableEq, Repr

/-- High-level view of the cluster state (types.go:109-115). -/
structure ClusterState where
  health : ClusterHealth
  unhealthyPods : List (String × PodStatus)
  since : Int
deriving DecidableEq, Repr

/-- `makeClusterState` (types.go:117-131): health is UNHEALTHY exactly when
the unhealthy map is non-empty, and `since` is stamped with `time.Now()`,
here the explicit `now`. -/
def makeClusterState (unhealthyPods : List (String × PodStatus)) (now : Int) : ClusterState :=
  { health := if 0 < unhealthyPods.length then ClusterHealth.UNHEALTHY else ClusterHealth.HEALTHY
    unhealthyPods := unhealthyPods
    since := now }

/-- `WatcherContext` (types.go:12-22).  The `killPod` closure and the stop
channel are modelled outside the state (kill invocations are returned by
`retaliate`); the Prometheus counter is a `Nat`. -/
structure WatcherContext where
  namespaceName : String
  podsStatus : List (String × PodStatus)
  clusterState : ClusterState
  retaliateGracePeriod : Int
  podKilledCounter : Nat
deriving DecidableEq, Repr

/-- `makeWatcherContext` (types.go:25-39): empty pod table, cluster state of
an empty map, counter at zero. -/
def makeWatcherContext (namespaceName : String) (gracePeriod : Int) (now : Int) : WatcherContext :=
  { namespaceName := namespaceName
    podsStatus := []
    clusterState := makeClusterState [] now
    retaliateGracePeriod := gracePeriod
    podKilledCounter := 0 }

/-- The `isPodHealthy` closure inside `evaluateClusterState` (types.go:44-58):
false if the phase is not Running, false as soon as one condition's status is
not True, true otherwise. -/
def isPodHealthy (pod : PodStatus) : Bool :=
  if pod.phase ≠ PodPhase.Running then false
  else pod.conditions.all fun condition =>
    decide (condition.status = ConditionStatus.ConditionTrue)

/-- The loop body of `evaluateClusterState` (types.go:60-65): build a fresh
map holding every pod of the table that fails `isPodHealthy`. -/
def collectUnhealthyPods (podsStatus : List (String × PodStatus)) : List (String × PodStatus) :=
  podsStatus.foldl
    (fun unhealthyPods kv =>
      if isPodHealthy kv.2 then unhealthyPods else mapInsert kv.1 kv.2 unhealthyPods)
    []

/-- `evaluateClusterState` (types.go:43-68): a fresh `ClusterState` built by
`makeClusterState` from the unhealthy pods of the table. -/
def evaluateClusterState (watcher : WatcherContext) (now : Int) : ClusterState :=
  makeClusterState (collectUnhealthyPods watcher.podsStatus) now

/-- Statement-level translation of `evaluateClusterState` keeping the
receiver explicit: the body threads the watcher through its loop and returns
it alongside the fresh state, making the absence of writes to the receiver a
provable fact rather than a typing convention. -/
def evaluateClusterStateS (watcher : WatcherContext) (now : Int) :
    WatcherContext × ClusterState :=
  let step := watcher.podsStatus.foldl
    (fun (acc : WatcherContext × List (String × PodStatus)) kv =>
      if isPodHealthy kv.2 then acc else (acc.1, mapInsert kv.1 kv.2 acc.2))
    (watcher, [])
  (step.1, makeClusterState step.2 now)

/-- The early-return condition chain of `updateClusterState` (types.go:76-98):
replace when health differs, when the unhealthy map sizes differ, or when some
stored unhealthy pod is missing from the new map or differs in phase or
conditions.  Each early `return` assigns the same candidate, so the chain is
one boolean disjunction. -/
def clusterStateChanged (old neo : ClusterState) : Bool :=
  if old.health ≠ neo.health then true
  else if old.unhealthyPods.length ≠ neo.unhealthyPods.length then true
  else old.unhealthyPods.any fun kv =>
    match mapLookup kv.1 neo.unhealthyPods with
    | none => true
    | some neoPod =>
        decide (neoPod.phase ≠ kv.2.phase) || decide (neoPod.conditions ≠ kv.2.conditions)

/-- `updateClusterState` (types.go:74-99): adopt the fresh candidate only when
`clusterStateChanged`, otherwise keep the stored state (and its `since`). -/
def updateClusterState (watcher : WatcherContext) (now : Int) : WatcherContext :=
  let state := evaluateClusterState watcher now
  if clusterStateChanged watcher.clusterState state then
    { watcher with clusterState := state }
  else watcher

/-- `retaliate` (main.go:377-399).  Returns the action-taken flag, the
watcher after the counter increments of the kill loop, and the list of
`killPod` invocations `(namespace, pod name, pod status)` the loop makes. -/
def retaliate (context : WatcherContext) (now : Int) :
    Bool × WatcherContext × List (String × String × PodStatus) :=
  if context.clusterState.health = ClusterHealth.HEALTHY ∨
      now - context.clusterState.since < context.retaliateGracePeriod then
    (false, context, [])
  else if 1 < context.clusterState.unhealthyPods.length then
    (false, context, [])
  else
    (true,
     { context with
        podKilledCounter := context.podKilledCounter + context.clusterState.unhealthyPods.length },
     context.clusterState.unhealthyPods.map fun kv => (context.namespaceName, kv.1, kv.2))

/-- One event consumed by the monitor loop of `watchPodsInNamespace`
(main.go:319-362): a pod lifecycle event carrying the pod's name and status,
or the one-minute liveness tick.  (The nil-payload error event restarts the
watch stream and is outside the sequential cycle.) -/
inductive PodEvent where
  | added (name : String) (status : PodStatus)
  | modified (name : String) (status : PodStatus)
  | deleted (name : String) (status : PodStatus)
  | tick
deriving DecidableEq, Repr

/-- The event switch of `watchPodsInNamespace` (main.go:336-349): Added and
Modified share one case and upsert by name, Deleted removes by name, the tick
records nothing. -/
def applyPodEvent (podsStatus : List (String × PodStatus)) :
    PodEvent → List (String × PodStatus)
  | PodEvent.added name status => mapInsert name status podsStatus
  | PodEvent.modified name status => mapInsert name status podsStatus
  | PodEvent.deleted name _ => mapErase name podsStatus
  | PodEvent.tick => podsStatus

/-- One iteration of the monitor loop (main.go:319-372): record the event,
re-evaluate and merge the cluster state, run `retaliate`, and on action-taken
reset `since` to now.  Returns the new watcher and the action-taken flag. -/
def monitorCycle (context : WatcherContext) (event : PodEvent) (now : Int) :
    WatcherContext × Bool :=
  let afterEvent := { context with podsStatus := applyPodEvent context.podsStatus event }
  let afterUpdate := updateClusterState afterEvent now
  let acted := (retaliate afterUpdate now).1
  let afterRetaliate := (retaliate afterUpdate now).2.1
  if acted then
    ({ afterRetaliate with
        clusterState := { afterRetaliate.clusterState with since := now } }, true)
  else (afterRetaliate, false)

/-- The monitor loop run over a finite trace of timestamped events, collecting
the times at which `retaliate` reported an action. -/
def runMonitor (context : WatcherContext) :
    List (PodEvent × Int) → WatcherContext × List Int
  | [] => (context, [])
  | (event, now) :: rest =>
    let step := monitorCycle context event now
    let tail := runMonitor step.1 rest
    (tail.1, (if step.2 then [now] else []) ++ tail.2)

/-- The Added branch of the namespace switch in `watchNamespaces`
(main.go:254-273): ignore names rejected by the filter, ignore names already
registered, otherwise register a fresh context.  Returns the registry and
whether a new monitor goroutine was started. -/
def watchNamespacesAdded (watcherContexts : List (String × WatcherContext))
    (isAllowedNamespace : String → Bool) (retaliateGracePeriod : Int) (now : Int)
    (namespaceName : String) : List (String × WatcherContext) × Bool :=
  if ¬ isAllowedNamespace namespaceName then (watcherContexts, false)
  else if (mapLookup namespaceName watcherContexts).isSome then (watcherContexts, false)
  else
    (mapInsert namespaceName (makeWatcherContext namespaceName retaliateGracePeriod now)
      watcherContexts, true)

/-- Log lines the `killPod` closures of main.go emit. -/
inductive KillLogEntry where
  | fakeKillingPod (namespaceName podName : String)
  | killingPod (namespaceName podName : String)
  | cannotKillPod (namespaceName podName : String)
deriving DecidableEq, Repr

/-- The `killPod` closures built in main.go:215-230, with the cluster API's
`Delete` modelled by a success oracle.  Returns the list of delete calls the
closure issues and its log lines: dry-run logs and never deletes; otherwise
one delete call, and a failure adds a log line but is neither retried nor
propagated (the closure returns nothing). -/
def killPodExec (dryRun : Bool) (deleteOk : String → String → Bool)
    (namespaceName podName : String) (_pod : PodStatus) :
    List (String × String) × List KillLogEntry :=
  if dryRun then ([], [KillLogEntry.fakeKillingPod namespaceName podName])
  else if deleteOk namespaceName podName then
    ([(namespaceName, podName)], [KillLogEntry.killingPod namespaceName podName])
  else
    ([(namespaceName, podName)],
     [KillLogEntry.killingPod namespaceName podName,
      KillLogEntry.cannotKillPod namespaceName podName])

/-- `retaliate` together with the execution of its `killPod` invocations
through the main.go closure: the decision, the watcher after the kill loop,
the delete calls issued, and the log lines. -/
def retaliateExec (context : WatcherContext) (now : Int) (dryRun : Bool)
    (deleteOk : String → String → Bool) :
    Bool × WatcherContext × List (String × String) × List KillLogEntry :=
  let decision := retaliate context now
  let runs := decision.2.2.map fun kv => killPodExec dryRun deleteOk kv.1 kv.2.1 kv.2.2
  (decision.1, decision.2.1, (runs.map Prod.fst).flatten, (runs.map Prod.snd).flatten)

theorem list_any_eq_false {α : Type} (p : α → Bool) (l : List α) :
    l.any p = false ↔ ∀ x ∈ l, p x = false := by
  induction l <;> simp_all

theorem mem_keySet {α : Type} (k : String) (m : List (String × α)) :
    k ∈ keySet m ↔ k ∈ m.map Prod.fst := by
  simp [keySet]

theorem keySet_card {α : Type} {m : List (String × α)} (hwf : MapWF m) :
    (keySet m).card = m.length := by
  unfold keySet
  rw [List.toFinset_card_of_nodup hwf]
  simp

theorem mapLookup_append {α : Type} (k : String) (a b : List (String × α)) :
    mapLookup k (a ++ b) = match mapLookup k a with
      | some v => some v
      | none => mapLookup k b := by
  induction a with
  | nil => simp [mapLookup]
  | cons hd tl ih =>
    obtain ⟨k', v⟩ := hd
    by_cases h : k' = k <;> simp [mapLookup, h, ih]

theorem filter_wf {α : Type} (p : String × α → Bool) {m : List (String × α)}
    (hwf : MapWF m) : MapWF (m.filter p) :=
  List.Nodup.sublist (List.Sublist.map Prod.fst (List.filter_sublist m)) hwf

theorem mapLookup_filter {α : Type} (p : String × α → Bool) {m : List (String × α)}
    (hwf : MapWF m) (k : String) (v : α) :
    mapLookup k (m.filter p) = some v ↔ mapLookup k m = some v ∧ p (k, v) = true := by
  constructor
  · intro h
    have hmem := mapLookup_mem h
    rw [List.mem_filter] at hmem
    exact ⟨mem_mapLookup hwf hmem.1, hmem.2⟩
  · rintro ⟨hl, hp⟩
    have hmem : (k, v) ∈ m.filter p := List.mem_filter.mpr ⟨mapLookup_mem hl, hp⟩
    exact mem_mapLookup (filter_wf p hwf) hmem

theorem collectUnhealthyPods_go (l acc : List (String × PodStatus))
    (hnd : (l.map Prod.fst).Nodup)
    (hdisj : ∀ k, k ∈ l.map Prod.fst → mapLookup k acc = none) :
    l.foldl (fun unhealthyPods kv =>
        if isPodHealthy kv.2 then unhealthyPods else mapInsert kv.1 kv.2 unhealthyPods) acc
      = acc ++ l.filter (fun kv => !isPodHealthy kv.2) := by
  induction l generalizing acc with
  | nil => simp
  | cons hd tl ih =>
    obtain ⟨k, v⟩ := hd
    simp only [List.map_cons, List.nodup_cons] at hnd
    have hheadlook : mapLookup k acc = none := hdisj k (by simp)
    simp only [List.foldl_cons]
    by_cases hh : isPodHealthy v
    · rw [if_pos hh]
      rw [ih acc hnd.2 (fun k' hk' => hdisj k' (by simp [hk']))]
      simp [List.filter_cons, hh]
    · rw [if_neg hh, mapInsert_of_lookup_none v hheadlook]
      rw [ih (acc ++ [(k, v)]) hnd.2 ?_]
      · simp [List.filter_cons, hh]
      · intro k' hk'
        rw [mapLookup_append]
        rw [hdisj k' (by simp [hk'])]
        have hkk : k ≠ k' := by
          rintro rfl
          exact hnd.1 hk'
        simp [mapLookup, hkk]

theorem collectUnhealthyPods_eq_filter {l : List (String × PodStatus)} (hwf : MapWF l) :
    collectUnhealthyPods l = l.filter (fun kv => !isPodHealthy kv.2) := by
  unfold collectUnhealthyPods
  rw [collectUnhealthyPods_go l [] hwf (fun k _ => rfl)]
  simp

theorem collectUnhealthyPods_go_wf (l : List (String × PodStatus))
    (acc : List (String × PodStatus)) (hwf : MapWF acc) :
    MapWF (l.foldl (fun unhealthyPods kv =>
      if isPodHealthy kv.2 then unhealthyPods else mapInsert kv.1 kv.2 unhealthyPods) acc) := by
  induction l generalizing acc with
  | nil => simpa
  | cons hd tl ih =>
    simp only [List.foldl_cons]
    by_cases hh : isPodHealthy hd.2
    · rw [if_pos hh]
      exact ih acc hwf
    · rw [if_neg hh]
      exact ih _ (mapInsert_wf hd.1 hd.2 hwf)

theorem collectUnhealthyPods_wf (l : List (String × PodStatus)) :
    MapWF (collectUnhealthyPods l) :=
  collectUnhealthyPods_go_wf l [] (by simp [MapWF])

theorem makeClusterState_unhealthyPods (l : List (String × PodStatus)) (t : Int) :
    (makeClusterState l t).unhealthyPods = l := rfl

theorem makeClusterState_health (l : List (String × PodStatus)) (t : Int) :
    (makeClusterState l t).health =
      if 0 < l.length then ClusterHealth.UNHEALTHY else ClusterHealth.HEALTHY := rfl

theorem makeClusterState_since (l : List (String × PodStatus)) (t : Int) :
    (makeClusterState l t).since = t := rfl

/-- The cluster-state invariant: UNHEALTHY exactly when the unhealthy map is
non-empty. -/
def HealthInv (s : ClusterState) : Prop :=
  s.health = ClusterHealth.UNHEALTHY ↔ s.unhealthyPods ≠ []

instance healthInv_decidable (s : ClusterState) : Decidable (HealthInv s) :=
  inferInstanceAs (Decidable (_ ↔ _))

theorem makeClusterState_healthInv (l : List (String × PodStatus)) (t : Int) :
    HealthInv (makeClusterState l t) := by
  unfold HealthInv
  rw [makeClusterState_health, makeClusterState_unhealthyPods]
  by_cases he : l = []
  · simp [he]
  · simp [he, List.length_pos.mpr he]

theorem evaluateClusterState_unhealthyPods (w : WatcherContext) (now : Int) :
    (evaluateClusterState w now).unhealthyPods = collectUnhealthyPods w.podsStatus := rfl

theorem evaluateClusterState_healthInv (w : WatcherContext) (now : Int) :
    HealthInv (evaluateClusterState w now) :=
  makeClusterState_healthInv _ now

theorem evaluateClusterState_wf (w : WatcherContext) (now : Int) :
    MapWF (evaluateClusterState w now).unhealthyPods :=
  collectUnhealthyPods_wf w.podsStatus

theorem clusterStateChanged_time_indep (s : ClusterState)
    (l : List (String × PodStatus)) (t1 t2 : Int) :
    clusterStateChanged s (makeClusterState l t1)
      = clusterStateChanged s (makeClusterState l t2) := rfl

theorem clusterStateChanged_self (s : ClusterState) (t : Int)
    (hwf : MapWF s.unhealthyPods) (hinv : HealthInv s) :
    clusterStateChanged s (makeClusterState s.unhealthyPods t) = false := by
  have hh : (makeClusterState s.unhealthyPods t).health = s.health := by
    rw [makeClusterState_health]
    by_cases he : s.unhealthyPods = []
    · have hs : s.health = ClusterHealth.HEALTHY := by
        cases hs : s.health
        · exact absurd (hinv.mp hs) (by simp [he])
        · rfl
      simp [he, hs]
    · simp [hinv.mpr he, List.length_pos.mpr he]
  unfold clusterStateChanged
  rw [hh, makeClusterState_unhealthyPods]
  have hany : ∀ kv ∈ s.unhealthyPods,
      (match mapLookup kv.1 s.unhealthyPods with
       | none => true
       | some neoPod =>
           decide (neoPod.phase ≠ kv.2.phase)
             || decide (neoPod.conditions ≠ kv.2.conditions)) = false := by
    intro kv hkv
    rw [mem_mapLookup hwf (show (kv.1, kv.2) ∈ s.unhealthyPods by simpa using hkv)]
    simp
  rw [if_neg (by simp), if_neg (by simp)]
  exact (list_any_eq_false _ _).mpr hany

/-- The merge condition in the words of the spec: health differs, or the
unhealthy-pod-name set differs, or some pod present in both unhealthy maps
differs in phase or conditions. -/
def SpecChanged (old neo : ClusterState) : Prop :=
  old.health ≠ neo.health ∨
  keySet old.unhealthyPods ≠ keySet neo.unhealthyPods ∨
  ∃ name oldPod neoPod,
    mapLookup name old.unhealthyPods = some oldPod ∧
    mapLookup name neo.unhealthyPods = some neoPod ∧
    (neoPod.phase ≠ oldPod.phase ∨ neoPod.conditions ≠ oldPod.conditions)

theorem clusterStateChanged_iff_specChanged (old neo : ClusterState)
    (hold : MapWF old.unhealthyPods) (hneo : MapWF neo.unhealthyPods) :
    clusterStateChanged old neo = true ↔ SpecChanged old neo := by
  unfold clusterStateChanged SpecChanged
  by_cases h1 : old.health ≠ neo.health
  · simp [h1]
  rw [if_neg h1]
  by_cases h2 : old.unhealthyPods.length ≠ neo.unhealthyPods.length
  · rw [if_pos h2]
    have hks : keySet old.unhealthyPods ≠ keySet neo.unhealthyPods := by
      intro heq
      apply h2
      have hcard := congrArg Finset.card heq
      rwa [keySet_card hold, keySet_card hneo] at hcard
    simp [hks]
  rw [if_neg h2]
  constructor
  · intro h
    rw [List.any_eq_true] at h
    obtain ⟨kv, hkv, hp⟩ := h
    cases hlook : mapLookup kv.1 neo.unhealthyPods with
    | none =>
      refine Or.inr (Or.inl ?_)
      intro hks
      have hmemo : kv.1 ∈ keySet old.unhealthyPods :=
        (mem_keySet _ _).mpr (List.mem_map_of_mem Prod.fst hkv)
      have hmemn : kv.1 ∈ neo.unhealthyPods.map Prod.fst :=
        (mem_keySet _ _).mp (hks ▸ hmemo)
      exact absurd hmemn ((mapLookup_eq_none _ _).mp hlook)
    | some neoPod =>
      rw [hlook] at hp
      simp only [Bool.or_eq_true, decide_eq_true_eq] at hp
      exact Or.inr (Or.inr ⟨kv.1, kv.2, neoPod,
        mem_mapLookup hold (by simpa using hkv), hlook, hp⟩)
  · intro h
    rcases h with h | h | h
    · exact absurd h h1
    · by_contra hb
      have hfalse := Bool.eq_false_iff.mpr hb
      have hpt := (list_any_eq_false _ _).mp hfalse
      have hlen : old.unhealthyPods.length = neo.unhealthyPods.length := not_ne_iff.mp h2
      have hsub : keySet old.unhealthyPods ⊆ keySet neo.unhealthyPods := by
        intro k hk
        rw [mem_keySet] at hk ⊢
        obtain ⟨kv, hkvmem, hfst⟩ := List.mem_map.mp hk
        have hf := hpt kv hkvmem
        cases hlook : mapLookup kv.1 neo.unhealthyPods with
        | none =>
          rw [hlook] at hf
          exact absurd hf (by simp)
        | some neoPod =>
          have hsome : kv.1 ∈ neo.unhealthyPods.map Prod.fst :=
            (mapLookup_isSome kv.1 _).mp (by simp [hlook])
          rwa [hfst] at hsome
      have hcard : (keySet neo.unhealthyPods).card ≤ (keySet old.unhealthyPods).card := by
        rw [keySet_card hold, keySet_card hneo, hlen]
      exact h (Finset.eq_of_subset_of_card_le hsub hcard)
    · obtain ⟨name, oldPod, neoPod, holdl, hneol, hdiff⟩ := h
      rw [List.any_eq_true]
      refine ⟨(name, oldPod), mapLookup_mem holdl, ?_⟩
      rw [hneol]
      simpa using hdiff

theorem updateClusterState_def (w : WatcherContext) (now : Int) :
    updateClusterState w now =
      if clusterStateChanged w.clusterState (evaluateClusterState w now) then
        { w with clusterState := evaluateClusterState w now }
      else w := rfl

theorem updateClusterState_cases (w : WatcherContext) (now : Int) :
    (clusterStateChanged w.clusterState (evaluateClusterState w now) = true ∧
       updateClusterState w now = { w with clusterState := evaluateClusterState w now }) ∨
    (clusterStateChanged w.clusterState (evaluateClusterState w now) = false ∧
       updateClusterState w now = w) := by
  rw [updateClusterState_def]
  by_cases h : clusterStateChanged w.clusterState (evaluateClusterState w now) = true
  · exact Or.inl ⟨h, by rw [if_pos h]⟩
  · exact Or.inr ⟨Bool.eq_false_iff.mpr h, by rw [if_neg h]⟩

theorem updateClusterState_podsStatus (w : WatcherContext) (now : Int) :
    (updateClusterState w now).podsStatus = w.podsStatus := by
  rw [updateClusterState_def]
  split <;> rfl

theorem updateClusterState_namespaceName (w : WatcherContext) (now : Int) :
    (updateClusterState w now).namespaceName = w.namespaceName := by
  rw [updateClusterState_def]
  split <;> rfl

theorem updateClusterState_grace (w : WatcherContext) (now : Int) :
    (updateClusterState w now).retaliateGracePeriod = w.retaliateGracePeriod := by
  rw [updateClusterState_def]
  split <;> rfl

theorem updateClusterState_counter (w : WatcherContext) (now : Int) :
    (updateClusterState w now).podKilledCounter = w.podKilledCounter := by
  rw [updateClusterState_def]
  split <;> rfl

theorem updateClusterState_clusterState_cases (w : WatcherContext) (now : Int) :
    (updateClusterState w now).clusterState = w.clusterState ∨
    (updateClusterState w now).clusterState = evaluateClusterState w now := by
  rw [updateClusterState_def]
  split
  · exact Or.inr rfl
  · exact Or.inl rfl

theorem updateClusterState_since_cases (w : WatcherContext) (now : Int) :
    (updateClusterState w now).clusterState.since = w.clusterState.since ∨
    (updateClusterState w now).clusterState.since = now := by
  rcases updateClusterState_clusterState_cases w now with h | h <;> rw [h]
  · exact Or.inl rfl
  · exact Or.inr rfl

theorem updateClusterState_wf (w : WatcherContext) (now : Int)
    (h : MapWF w.clusterState.unhealthyPods) :
    MapWF (updateClusterState w now).clusterState.unhealthyPods := by
  rcases updateClusterState_clusterState_cases w now with hc | hc <;> rw [hc]
  · exact h
  · exact evaluateClusterState_wf w now

theorem updateClusterState_healthInv (w : WatcherContext) (now : Int)
    (h : HealthInv w.clusterState) :
    HealthInv (updateClusterState w now).clusterState := by
  rcases updateClusterState_clusterState_cases w now with hc | hc <;> rw [hc]
  · exact h
  · exact evaluateClusterState_healthInv w now

theorem updateClusterState_idem (w : WatcherContext) (t1 t2 : Int) :
    updateClusterState (updateClusterState w t1) t2 = updateClusterState w t1 := by
  rcases updateClusterState_cases w t1 with ⟨hch, heq⟩ | ⟨hch, heq⟩
  · rw [heq, updateClusterState_def]
    have hself : clusterStateChanged
        ({ w with clusterState := evaluateClusterState w t1 } : WatcherContext).clusterState
        (evaluateClusterState { w with clusterState := evaluateClusterState w t1 } t2)
          = false := by
      have h1 := clusterStateChanged_self (evaluateClusterState w t1) t2
        (evaluateClusterState_wf w t1) (evaluateClusterState_healthInv w t1)
      exact h1
    rw [hself]
    simp
  · rw [heq, updateClusterState_def]
    have hch2 : clusterStateChanged w.clusterState (evaluateClusterState w t2) = false := by
      have hti := clusterStateChanged_time_indep w.clusterState
        (collectUnhealthyPods w.podsStatus) t2 t1
      exact hti.trans hch
    rw [hch2]
    simp

theorem retaliate_fields (w : WatcherContext) (now : Int) :
    (retaliate w now).2.1.namespaceName = w.namespaceName ∧
    (retaliate w now).2.1.podsStatus = w.podsStatus ∧
    (retaliate w now).2.1.clusterState = w.clusterState ∧
    (retaliate w now).2.1.retaliateGracePeriod = w.retaliateGracePeriod := by
  unfold retaliate
  split
  · exact ⟨rfl, rfl, rfl, rfl⟩
  · split
    · exact ⟨rfl, rfl, rfl, rfl⟩
    · exact ⟨rfl, rfl, rfl, rfl⟩

theorem retaliate_acted (w : WatcherContext) (now : Int)
    (h : (retaliate w now).1 = true) :
    w.clusterState.health ≠ ClusterHealth.HEALTHY ∧
    w.retaliateGracePeriod ≤ now - w.clusterState.since ∧
    w.clusterState.unhealthyPods.length ≤ 1 := by
  unfold retaliate at h
  by_cases h1 : w.clusterState.health = ClusterHealth.HEALTHY ∨
      now - w.clusterState.since < w.retaliateGracePeriod
  · rw [if_pos h1] at h
    exact absurd h (by simp)
  · rw [if_neg h1] at h
    by_cases h2 : 1 < w.clusterState.unhealthyPods.length
    · rw [if_pos h2] at h
      exact absurd h (by simp)
    · push_neg at h1 h2
      exact ⟨h1.1, h1.2, h2⟩

theorem monitorCycle_acted_eq (w : WatcherContext) (ev : PodEvent) (now : Int) :
    (monitorCycle w ev now).2
      = (retaliate (updateClusterState
          { w with podsStatus := applyPodEvent w.podsStatus ev } now) now).1 := by
  simp only [monitorCycle]
  split
  · next h => exact h.symm
  · next h => exact (Bool.eq_false_iff.mpr h).symm

theorem monitorCycle_namespaceName (w : WatcherContext) (ev : PodEvent) (now : Int) :
    (monitorCycle w ev now).1.namespaceName = w.namespaceName := by
  simp only [monitorCycle]
  split
  · exact ((retaliate_fields _ now).1).trans (updateClusterState_namespaceName _ now)
  · exact ((retaliate_fields _ now).1).trans (updateClusterState_namespaceName _ now)

theorem monitorCycle_grace (w : WatcherContext) (ev : PodEvent) (now : Int) :
    (monitorCycle w ev now).1.retaliateGracePeriod = w.retaliateGracePeriod := by
  simp only [monitorCycle]
  split
  · exact ((retaliate_fields _ now).2.2.2).trans (updateClusterState_grace _ now)
  · exact ((retaliate_fields _ now).2.2.2).trans (updateClusterState_grace _ now)

theorem monitorCycle_since_cases (w : WatcherContext) (ev : PodEvent) (now : Int) :
    (monitorCycle w ev now).1.clusterState.since = w.clusterState.since ∨
    (monitorCycle w ev now).1.clusterState.since = now := by
  simp only [monitorCycle]
  split
  · exact Or.inr rfl
  · rw [(retaliate_fields _ now).2.2.1]
    exact updateClusterState_since_cases { w with podsStatus := applyPodEvent w.podsStatus ev } now

theorem monitorCycle_acted_since (w : WatcherContext) (ev : PodEvent) (now : Int)
    (h : (monitorCycle w ev now).2 = true) :
    (monitorCycle w ev now).1.clusterState.since = now := by
  simp only [monitorCycle] at h ⊢
  split at h
  · next hc =>
    rw [if_pos hc]
  · next hc =>
    simp at h

theorem monitorCycle_acted_grace (w : WatcherContext) (ev : PodEvent) (now : Int)
    (h : (monitorCycle w ev now).2 = true) :
    w.retaliateGracePeriod ≤ now - w.clusterState.since ∨
    w.retaliateGracePeriod ≤ 0 := by
  rw [monitorCycle_acted_eq] at h
  have hr := retaliate_acted _ now h
  rw [updateClusterState_grace] at hr
  rcases updateClusterState_since_cases
      { w with podsStatus := applyPodEvent w.podsStatus ev } now with hs | hs
  · rw [hs] at hr
    exact Or.inl hr.2.1
  · rw [hs] at hr
    have h0 : now - now = (0 : Int) := by omega
    rw [h0] at hr
    exact Or.inr hr.2.1

theorem runMonitor_kills_ge (evs : List (PodEvent × Int)) (c : Int) :
    ∀ w : WatcherContext, c ≤ w.clusterState.since → (∀ e ∈ evs, c ≤ e.2) →
      ∀ t ∈ (runMonitor w evs).2, w.retaliateGracePeriod ≤ t - c := by
  induction evs with
  | nil =>
    intro w _ _ t ht
    simp [runMonitor] at ht
  | cons e rest ih =>
    intro w hsince htimes t ht
    obtain ⟨ev, tm⟩ := e
    simp only [runMonitor, List.mem_append] at ht
    rcases ht with ht | ht
    · cases hA : (monitorCycle w ev tm).2 with
      | false =>
        rw [hA] at ht
        simp at ht
      | true =>
        rw [hA] at ht
        simp only [if_pos trivial, List.mem_singleton] at ht
        subst ht
        have hc : c ≤ t := htimes (ev, t) (by simp)
        rcases monitorCycle_acted_grace w ev t hA with hg | hg
        · omega
        · omega
    · have hg := monitorCycle_grace w ev tm
      have hs : c ≤ (monitorCycle w ev tm).1.clusterState.since := by
        rcases monitorCycle_since_cases w ev tm with h | h <;> rw [h]
        · exact hsince
        · exact htimes (ev, tm) (by simp)
      have hrec := ih (monitorCycle w ev tm).1 hs
        (fun e he => htimes e (List.mem_cons_of_mem _ he)) t ht
      rwa [hg] at hrec

theorem runMonitor_pairwise (evs : List (PodEvent × Int)) :
    ∀ w : WatcherContext, List.Pairwise (fun a b => a.2 ≤ b.2) evs →
      List.Pairwise (fun t t' => w.retaliateGracePeriod ≤ t' - t) (runMonitor w evs).2 := by
  induction evs with
  | nil =>
    intro w _
    simp [runMonitor]
  | cons e rest ih =>
    intro w hsorted
    obtain ⟨ev, tm⟩ := e
    rw [List.pairwise_cons] at hsorted
    simp only [runMonitor]
    rw [List.pairwise_append]
    refine ⟨?_, ?_, ?_⟩
    · cases hA : (monitorCycle w ev tm).2 <;> simp
    · have := ih (monitorCycle w ev tm).1 hsorted.2
      rwa [monitorCycle_grace w ev tm] at this
    · intro a ha b hb
      cases hA : (monitorCycle w ev tm).2 with
      | false =>
        rw [hA] at ha
        simp at ha
      | true =>
        rw [hA] at ha
        simp only [if_pos trivial, List.mem_singleton] at ha
        subst ha
        have hsince : a ≤ (monitorCycle w ev a).1.clusterState.since :=
          le_of_eq (monitorCycle_acted_since w ev a hA).symm
        have hrec := runMonitor_kills_ge rest a (monitorCycle w ev a).1 hsince
          (fun e he => hsorted.1 e he) b hb
        rwa [monitorCycle_grace w ev a] at hrec

theorem evaluateClusterStateS_fold (l : List (String × PodStatus)) :
    ∀ acc : WatcherContext × List (String × PodStatus),
      l.foldl (fun acc kv =>
          if isPodHealthy kv.2 then acc else (acc.1, mapInsert kv.1 kv.2 acc.2)) acc
        = (acc.1, l.foldl (fun u kv =>
            if isPodHealthy kv.2 then u else mapInsert kv.1 kv.2 u) acc.2) := by
  induction l with
  | nil => intro acc; rfl
  | cons hd tl ih =>
    intro acc
    simp only [List.foldl_cons]
    by_cases hh : isPodHealthy hd.2
    · rw [if_pos hh, if_pos hh]
      exact ih acc
    · rw [if_neg hh, if_neg hh]
      exact ih (acc.1, mapInsert hd.1 hd.2 acc.2)

theorem evaluateClusterStateS_eq (w : WatcherContext) (now : Int) :
    evaluateClusterStateS w now = (w, evaluateClusterState w now) := by
  unfold evaluateClusterStateS evaluateClusterState collectUnhealthyPods
  rw [evaluateClusterStateS_fold]

/-- A Running pod with no conditions, as in the repository's tests. -/
def podRunning : PodStatus := { phase := PodPhase.Running, conditions := [] }

/-- A Pending pod with no conditions. -/
def podPending : PodStatus := { phase := PodPhase.Pending, conditions := [] }

/-- A PodScheduled condition with status False. -/
def condSchedFalse : PodCondition :=
  { condType := "PodScheduled", status := ConditionStatus.ConditionFalse,
    lastProbeTime := 0, lastTransitionTime := 0, reason := "", message := "" }

/-- A Running pod with one failing condition. -/
def podNotReady : PodStatus := { phase := PodPhase.Running, conditions := [condSchedFalse] }

/-- A watcher whose single pod is Pending and whose stored state already
reflects it, with the unhealthy episode starting at time 0. -/
def exampleWatcher : WatcherContext :=
  { namespaceName := "toto"
    podsStatus := [("toto1", podPending)]
    clusterState := { health := ClusterHealth.UNHEALTHY
                      unhealthyPods := [("toto1", podPending)]
                      since := 0 }
    retaliateGracePeriod := 60
    podKilledCounter := 0 }

/-- A watcher whose stored state is stale: the table has an unhealthy pod but
the stored state still says HEALTHY. -/
def exampleStale : WatcherContext :=
  { namespaceName := "toto"
    podsStatus := [("toto1", podPending)]
    clusterState := { health := ClusterHealth.HEALTHY, unhealthyPods := [], since := 0 }
    retaliateGracePeriod := 60
    podKilledCounter := 0 }

theorem retaliate_single_kill (w : WatcherContext) (now : Int)
    (hinv : HealthInv w.clusterState)
    (hh : w.clusterState.health = ClusterHealth.UNHEALTHY)
    (hg : w.retaliateGracePeriod ≤ now - w.clusterState.since)
    (hlen : w.clusterState.unhealthyPods.length ≤ 1) :
    ∃ podName pod, w.clusterState.unhealthyPods = [(podName, pod)] ∧
      retaliate w now =
        (true, { w with podKilledCounter := w.podKilledCounter + 1 },
         [(w.namespaceName, podName, pod)]) := by
  have hne : w.clusterState.unhealthyPods ≠ [] := hinv.mp hh
  obtain ⟨podName, pod, hsing⟩ :
      ∃ n p, w.clusterState.unhealthyPods = [(n, p)] := by
    cases hup : w.clusterState.unhealthyPods with
    | nil => exact absurd hup hne
    | cons hd tl =>
      obtain ⟨n, p⟩ := hd
      cases tl with
      | nil => exact ⟨n, p, rfl⟩
      | cons hd2 tl2 =>
        rw [hup] at hlen
        simp at hlen
  have hc1 : ¬(w.clusterState.health = ClusterHealth.HEALTHY ∨
      now - w.clusterState.since < w.retaliateGracePeriod) := by
    rintro (h | h)
    · rw [hh] at h
      exact ClusterHealth.noConfusion h
    · omega
  have hc2 : ¬(1 < w.clusterState.unhealthyPods.length) := by omega
  refine ⟨podName, pod, hsing, ?_⟩
  unfold retaliate
  rw [if_neg hc1, if_neg hc2, hsing]
  simp

/-- C3: the health classifier returns unhealthy if the phase is not Running,
unhealthy if any condition's status is not True, and healthy otherwise; a
Running pod with zero conditions is healthy, and a non-Running pod is
unhealthy regardless of its conditions. -/
theorem isPodHealthy_spec (pod : PodStatus) :
    (pod.phase ≠ PodPhase.Running → isPodHealthy pod = false) ∧
    ((∃ c ∈ pod.conditions, c.status ≠ ConditionStatus.ConditionTrue) →
      isPodHealthy pod = false) ∧
    (pod.phase = PodPhase.Running ∧
        (∀ c ∈ pod.conditions, c.status = ConditionStatus.ConditionTrue) →
      isPodHealthy pod = true) ∧
    (pod.phase = PodPhase.Running ∧ pod.conditions = [] → isPodHealthy pod = true) := by
  unfold isPodHealthy
  refine ⟨?_, ?_, ?_, ?_⟩
  · intro h
    rw [if_pos h]
  · rintro ⟨c, hc, hst⟩
    by_cases hp : pod.phase ≠ PodPhase.Running
    · rw [if_pos hp]
    · rw [if_neg hp]
      apply Bool.eq_false_iff.mpr
      intro hall
      rw [List.all_eq_true] at hall
      exact hst (by simpa using hall c hc)
  · rintro ⟨hp, hall⟩
    rw [if_neg (by simp [hp])]
    rw [List.all_eq_true]
    intro c hc
    simpa using hall c hc
  · rintro ⟨hp, hnil⟩
    rw [if_neg (by simp [hp]), hnil]
    rfl

/-- Concrete application of isPodHealthy_spec: a Running pod with no
conditions is healthy, a Pending pod is not, and a Running pod with a False
condition is not. -/
theorem isPodHealthy_spec_witness :
    isPodHealthy podRunning = true ∧ isPodHealthy podPending = false ∧
    isPodHealthy podNotReady = false :=
  ⟨(isPodHealthy_spec podRunning).2.2.2 (by decide),
   (isPodHealthy_spec podPending).1 (by decide),
   (isPodHealthy_spec podNotReady).2.1 ⟨condSchedFalse, by decide, by decide⟩⟩

/-- C5: the evaluator's unhealthy mapping holds exactly the pods of the table
failing the classifier, the empty table yields HEALTHY with an empty mapping,
and health and mapping are a function of the pod table alone. -/
theorem evaluateClusterState_spec (w : WatcherContext) (now : Int)
    (hwf : MapWF w.podsStatus) :
    (∀ name st, mapLookup name (evaluateClusterState w now).unhealthyPods = some st ↔
        mapLookup name w.podsStatus = some st ∧ isPodHealthy st = false) ∧
    (w.podsStatus = [] → (evaluateClusterState w now).health = ClusterHealth.HEALTHY ∧
        (evaluateClusterState w now).unhealthyPods = []) ∧
    (∀ (w2 : WatcherContext) (now2 : Int), w.podsStatus = w2.podsStatus →
        (evaluateClusterState w now).health = (evaluateClusterState w2 now2).health ∧
        (evaluateClusterState w now).unhealthyPods
          = (evaluateClusterState w2 now2).unhealthyPods) := by
  refine ⟨?_, ?_, ?_⟩
  · intro name st
    rw [evaluateClusterState_unhealthyPods, collectUnhealthyPods_eq_filter hwf,
      mapLookup_filter _ hwf name st]
    simp
  · intro h
    unfold evaluateClusterState
    rw [h]
    exact ⟨by simp [makeClusterState, collectUnhealthyPods],
      by simp [collectUnhealthyPods, makeClusterState]⟩
  · intro w2 now2 hp
    unfold evaluateClusterState collectUnhealthyPods
    rw [hp]
    exact ⟨rfl, rfl⟩

/-- Concrete application of evaluateClusterState_spec: the Pending pod of the
example watcher appears in the evaluated unhealthy mapping. -/
theorem evaluateClusterState_spec_witness :
    mapLookup "toto1" (evaluateClusterState exampleWatcher 5).unhealthyPods
      = some podPending :=
  ((evaluateClusterState_spec exampleWatcher 5 (by decide)).1 "toto1" podPending).mpr
    (by decide)

/-- C4: every constructed cluster state is UNHEALTHY exactly when its
unhealthy mapping is non-empty: true of makeClusterState, of a fresh watcher
context, of every evaluation, and preserved by the merge step. -/
theorem clusterState_health_invariant :
    (∀ (pods : List (String × PodStatus)) (now : Int),
        HealthInv (makeClusterState pods now)) ∧
    (∀ (name : String) (grace now : Int),
        HealthInv (makeWatcherContext name grace now).clusterState) ∧
    (∀ (w : WatcherContext) (now : Int), HealthInv (evaluateClusterState w now)) ∧
    (∀ (w : WatcherContext) (now : Int), HealthInv w.clusterState →
        HealthInv (updateClusterState w now).clusterState) :=
  ⟨makeClusterState_healthInv,
   fun _ _ now => makeClusterState_healthInv [] now,
   evaluateClusterState_healthInv,
   updateClusterState_healthInv⟩

/-- Concrete application of clusterState_health_invariant: the merge step
keeps the invariant on the example watcher. -/
theorem clusterState_health_invariant_witness :
    HealthInv (updateClusterState exampleWatcher 5).clusterState :=
  clusterState_health_invariant.2.2.2 exampleWatcher 5 (by decide)

/-- C2: the merge step adopts the freshly evaluated candidate exactly when
health differs, or the unhealthy-pod-name set differs, or a pod present in
both unhealthy maps differs in phase or conditions; otherwise the watcher,
including its since, is left entirely unchanged, and re-evaluating an
unchanged pod table never changes since. -/
theorem updateClusterState_spec (w : WatcherContext) (now : Int)
    (hwf : MapWF w.clusterState.unhealthyPods) :
    (SpecChanged w.clusterState (evaluateClusterState w now) →
        updateClusterState w now = { w with clusterState := evaluateClusterState w now }) ∧
    (¬ SpecChanged w.clusterState (evaluateClusterState w now) →
        updateClusterState w now = w) ∧
    (∀ t2 : Int, updateClusterState (updateClusterState w now) t2
        = updateClusterState w now) := by
  have hiff := clusterStateChanged_iff_specChanged w.clusterState
    (evaluateClusterState w now) hwf (evaluateClusterState_wf w now)
  refine ⟨?_, ?_, fun t2 => updateClusterState_idem w now t2⟩
  · intro h
    rw [updateClusterState_def, if_pos (hiff.mpr h)]
  · intro h
    rw [updateClusterState_def, if_neg fun hb => h (hiff.mp hb)]

/-- Concrete application of updateClusterState_spec: a stale HEALTHY state is
replaced by the fresh UNHEALTHY candidate, and the merge is idempotent. -/
theorem updateClusterState_spec_witness :
    updateClusterState exampleStale 5
      = { exampleStale with clusterState := evaluateClusterState exampleStale 5 } ∧
    updateClusterState (updateClusterState exampleStale 5) 9
      = updateClusterState exampleStale 5 :=
  ⟨(updateClusterState_spec exampleStale 5 (by decide)).1 (Or.inl (by decide)),
   (updateClusterState_spec exampleStale 5 (by decide)).2.2 9⟩

/-- C1: the retaliation decision returns false on a HEALTHY state, false
while the grace period has not elapsed, false when more than one pod is
unhealthy regardless of elapsed time, and otherwise, for the single unhealthy
pod, increments the kill counter, invokes the pod-deletion capability exactly
once with the namespace, pod name and pod status, and returns true. -/
theorem retaliate_spec (w : WatcherContext) (now : Int)
    (hinv : HealthInv w.clusterState) :
    (w.clusterState.health = ClusterHealth.HEALTHY → retaliate w now = (false, w, [])) ∧
    (now - w.clusterState.since < w.retaliateGracePeriod →
        retaliate w now = (false, w, [])) ∧
    (1 < w.clusterState.unhealthyPods.length → retaliate w now = (false, w, [])) ∧
    (w.clusterState.health = ClusterHealth.UNHEALTHY →
      w.retaliateGracePeriod ≤ now - w.clusterState.since →
      w.clusterState.unhealthyPods.length ≤ 1 →
      ∃ podName pod, w.clusterState.unhealthyPods = [(podName, pod)] ∧
        retaliate w now =
          (true, { w with podKilledCounter := w.podKilledCounter + 1 },
           [(w.namespaceName, podName, pod)])) := by
  refine ⟨?_, ?_, ?_, fun hh hg hlen => retaliate_single_kill w now hinv hh hg hlen⟩
  · intro h
    unfold retaliate
    rw [if_pos (Or.inl h)]
  · intro h
    unfold retaliate
    rw [if_pos (Or.inr h)]
  · intro h
    unfold retaliate
    by_cases h1 : w.clusterState.health = ClusterHealth.HEALTHY ∨
        now - w.clusterState.since < w.retaliateGracePeriod
    · rw [if_pos h1]
    · rw [if_neg h1, if_pos h]

/-- Concrete application of retaliate_spec: inside the grace period nothing
happens; past it, the single Pending pod is killed exactly once. -/
theorem retaliate_spec_witness :
    retaliate exampleWatcher 30 = (false, exampleWatcher, []) ∧
    ∃ podName pod, exampleWatcher.clusterState.unhealthyPods = [(podName, pod)] ∧
      retaliate exampleWatcher 100
        = (true, { exampleWatcher with
            podKilledCounter := exampleWatcher.podKilledCounter + 1 },
           [(exampleWatcher.namespaceName, podName, pod)]) :=
  ⟨(retaliate_spec exampleWatcher 30 (by decide)).2.1 (by decide),
   (retaliate_spec exampleWatcher 100 (by decide)).2.2.2 (by decide) (by decide) (by decide)⟩

/-- C6: when retaliation reports an action the monitor cycle resets since to
now, and along any time-sorted execution of the monitor loop any two kill
times are at least one full grace period apart. -/
theorem monitor_kill_separation :
    (∀ (w : WatcherContext) (ev : PodEvent) (now : Int),
        (monitorCycle w ev now).2 = true →
        (monitorCycle w ev now).1.clusterState.since = now) ∧
    (∀ (w : WatcherContext) (evs : List (PodEvent × Int)),
        List.Pairwise (fun a b => a.2 ≤ b.2) evs →
        List.Pairwise (fun t t' => w.retaliateGracePeriod ≤ t' - t)
          (runMonitor w evs).2) :=
  ⟨monitorCycle_acted_since, fun w evs h => runMonitor_pairwise evs w h⟩

/-- Concrete application of monitor_kill_separation: on a three-tick trace
the example watcher kills at 100 and 180, which are one grace period apart. -/
theorem monitor_kill_separation_witness :
    (monitorCycle exampleWatcher PodEvent.tick 100).2 = true ∧
    (monitorCycle exampleWatcher PodEvent.tick 100).1.clusterState.since = 100 ∧
    (runMonitor exampleWatcher
        [(PodEvent.tick, 100), (PodEvent.tick, 120), (PodEvent.tick, 180)]).2
      = [100, 180] ∧
    List.Pairwise (fun t t' => exampleWatcher.retaliateGracePeriod ≤ t' - t)
      (runMonitor exampleWatcher
        [(PodEvent.tick, 100), (PodEvent.tick, 120), (PodEvent.tick, 180)]).2 :=
  ⟨by decide,
   monitor_kill_separation.1 exampleWatcher PodEvent.tick 100 (by decide),
   by decide,
   monitor_kill_separation.2 exampleWatcher
     [(PodEvent.tick, 100), (PodEvent.tick, 120), (PodEvent.tick, 180)] (by decide)⟩

/-- C9: the evaluator writes nothing: the statement-level translation returns
the receiver unchanged, with pod table and stored state intact, and its
candidate equals the pure evaluation. -/
theorem evaluateClusterState_frame (w : WatcherContext) (now : Int) :
    (evaluateClusterStateS w now).1 = w ∧
    (evaluateClusterStateS w now).1.podsStatus = w.podsStatus ∧
    (evaluateClusterStateS w now).1.clusterState = w.clusterState ∧
    (evaluateClusterStateS w now).2 = evaluateClusterState w now := by
  rw [evaluateClusterStateS_eq w now]
  exact ⟨rfl, rfl, rfl, rfl⟩

/-- C10: Added and Modified upsert identically, a Modified event for an
unknown pod inserts it, lookups at other names are untouched, and a Deleted
event for an absent name leaves the table unchanged. -/
theorem podEvent_handling_spec (tbl : List (String × PodStatus)) (name : String)
    (st st2 : PodStatus) :
    (applyPodEvent tbl (PodEvent.added name st)
        = applyPodEvent tbl (PodEvent.modified name st)) ∧
    (mapLookup name (applyPodEvent tbl (PodEvent.modified name st)) = some st) ∧
    (∀ other, other ≠ name →
        mapLookup other (applyPodEvent tbl (PodEvent.modified name st))
          = mapLookup other tbl) ∧
    (mapLookup name tbl = none →
        applyPodEvent tbl (PodEvent.modified name st) = tbl ++ [(name, st)]) ∧
    (mapLookup name tbl = none → applyPodEvent tbl (PodEvent.deleted name st2) = tbl) :=
  ⟨rfl, mapLookup_mapInsert_self name st tbl,
   fun _ hne => mapLookup_mapInsert_ne hne st tbl,
   fun h => mapInsert_of_lookup_none st h,
   fun h => mapErase_of_lookup_none h⟩

/-- Concrete application of podEvent_handling_spec: a Modified event for a
pod never seen inserts it, and a Deleted event for an absent pod is a no-op. -/
theorem podEvent_handling_spec_witness :
    applyPodEvent [("toto1", podRunning)] (PodEvent.modified "toto2" podPending)
      = [("toto1", podRunning), ("toto2", podPending)] ∧
    applyPodEvent [("toto1", podRunning)] (PodEvent.deleted "toto2" podPending)
      = [("toto1", podRunning)] :=
  ⟨(podEvent_handling_spec [("toto1", podRunning)] "toto2" podPending podPending).2.2.2.1
      (by decide),
   (podEvent_handling_spec [("toto1", podRunning)] "toto2" podPending podPending).2.2.2.2
      (by decide)⟩

theorem watchNamespacesAdded_filtered (registry : List (String × WatcherContext))
    (isAllowedNamespace : String → Bool) (grace now : Int) (namespaceName : String)
    (h : isAllowedNamespace namespaceName = false) :
    watchNamespacesAdded registry isAllowedNamespace grace now namespaceName
      = (registry, false) := by
  unfold watchNamespacesAdded
  rw [if_pos (by simp [h])]

theorem watchNamespacesAdded_present (registry : List (String × WatcherContext))
    (isAllowedNamespace : String → Bool) (grace now : Int) (namespaceName : String)
    (h : namespaceName ∈ registry.map Prod.fst) :
    watchNamespacesAdded registry isAllowedNamespace grace now namespaceName
      = (registry, false) := by
  unfold watchNamespacesAdded
  by_cases hf : isAllowedNamespace namespaceName
  · rw [if_neg (by simp [hf]), if_pos ((mapLookup_isSome _ _).mpr h)]
  · rw [if_pos (by simp [Bool.eq_false_iff.mpr hf])]

theorem watchNamespacesAdded_mem_after (registry : List (String × WatcherContext))
    (isAllowedNamespace : String → Bool) (grace now : Int) (namespaceName : String)
    (h : isAllowedNamespace namespaceName = true) :
    namespaceName ∈
      (watchNamespacesAdded registry isAllowedNamespace grace now namespaceName).1.map
        Prod.fst := by
  unfold watchNamespacesAdded
  rw [if_neg (by simp [h])]
  by_cases hm : (mapLookup namespaceName registry).isSome
  · rw [if_pos hm]
    exact (mapLookup_isSome _ _).mp hm
  · rw [if_neg hm]
    rw [mapInsert_keys]
    by_cases hmem : namespaceName ∈ registry.map Prod.fst
    · simp [hmem]
    · simp [hmem]

/-- C7: an Added namespace event rejected by the filter never registers the
namespace, an Added event for an already registered namespace is a no-op, and
processing the same Added event twice equals processing it once, with no
second monitor started. -/
theorem watchNamespaces_added_spec (registry : List (String × WatcherContext))
    (isAllowedNamespace : String → Bool) (grace now : Int) (namespaceName : String) :
    (isAllowedNamespace namespaceName = false →
        watchNamespacesAdded registry isAllowedNamespace grace now namespaceName
          = (registry, false)) ∧
    (namespaceName ∈ registry.map Prod.fst →
        watchNamespacesAdded registry isAllowedNamespace grace now namespaceName
          = (registry, false)) ∧
    (∀ now2 : Int,
        watchNamespacesAdded
          (watchNamespacesAdded registry isAllowedNamespace grace now namespaceName).1
          isAllowedNamespace grace now2 namespaceName
        = ((watchNamespacesAdded registry isAllowedNamespace grace now namespaceName).1,
           false)) := by
  refine ⟨watchNamespacesAdded_filtered registry isAllowedNamespace grace now namespaceName,
    watchNamespacesAdded_present registry isAllowedNamespace grace now namespaceName, ?_⟩
  intro now2
  by_cases hf : isAllowedNamespace namespaceName
  · exact watchNamespacesAdded_present _ isAllowedNamespace grace now2 namespaceName
      (watchNamespacesAdded_mem_after registry isAllowedNamespace grace now namespaceName hf)
  · have hf' := Bool.eq_false_iff.mpr hf
    rw [watchNamespacesAdded_filtered registry isAllowedNamespace grace now namespaceName hf']
    exact watchNamespacesAdded_filtered registry isAllowedNamespace grace now2 namespaceName hf'

/-- Concrete application of watchNamespaces_added_spec: a filtered-out name
is never registered, a registered name is a no-op, and replaying the same
Added event leaves the registry alone and starts nothing. -/
theorem watchNamespaces_added_spec_witness :
    watchNamespacesAdded [] (fun s => s == "toto") 60 0 "other" = ([], false) ∧
    watchNamespacesAdded [("toto", makeWatcherContext "toto" 60 0)]
        (fun s => s == "toto") 60 5 "toto"
      = ([("toto", makeWatcherContext "toto" 60 0)], false) ∧
    watchNamespacesAdded
        (watchNamespacesAdded [] (fun s => s == "toto") 60 0 "toto").1
        (fun s => s == "toto") 60 5 "toto"
      = ((watchNamespacesAdded [] (fun s => s == "toto") 60 0 "toto").1, false) :=
  ⟨(watchNamespaces_added_spec [] (fun s => s == "toto") 60 0 "other").1 (by decide),
   (watchNamespaces_added_spec [("toto", makeWatcherContext "toto" 60 0)]
      (fun s => s == "toto") 60 5 "toto").2.1 (by decide),
   (watchNamespaces_added_spec [] (fun s => s == "toto") 60 0 "toto").2.2 5⟩

/-- C8: a failed pod deletion changes nothing about the decision: retaliation
still reports true, the counter increment stands, the watcher state is not
rolled back, the capability is invoked exactly once in the cycle, decision
and state are independent of the delete outcome, and the failure shows up
only as a log line. -/
theorem retaliate_delete_failure_spec (w : WatcherContext) (now : Int)
    (deleteOk : String → String → Bool)
    (hinv : HealthInv w.clusterState)
    (hacted : (retaliate w now).1 = true) :
    (retaliateExec w now false deleteOk).1 = true ∧
    (retaliateExec w now false deleteOk).2.1 = (retaliate w now).2.1 ∧
    (retaliateExec w now false deleteOk).2.1.podsStatus = w.podsStatus ∧
    (retaliateExec w now false deleteOk).2.1.clusterState = w.clusterState ∧
    (retaliateExec w now false deleteOk).2.1.podKilledCounter
      = w.podKilledCounter + 1 ∧
    (retaliateExec w now false deleteOk).2.2.1.length = 1 ∧
    (∀ deleteOk2 : String → String → Bool,
        (retaliateExec w now false deleteOk2).1 = (retaliateExec w now false deleteOk).1 ∧
        (retaliateExec w now false deleteOk2).2.1
          = (retaliateExec w now false deleteOk).2.1 ∧
        (retaliateExec w now false deleteOk2).2.2.1
          = (retaliateExec w now false deleteOk).2.2.1) ∧
    (∀ podName pod, w.clusterState.unhealthyPods = [(podName, pod)] →
        deleteOk w.namespaceName podName = false →
        KillLogEntry.cannotKillPod w.namespaceName podName
          ∈ (retaliateExec w now false deleteOk).2.2.2) := by
  have ha := retaliate_acted w now hacted
  have hh : w.clusterState.health = ClusterHealth.UNHEALTHY := by
    cases hcs : w.clusterState.health
    · rfl
    · exact absurd hcs ha.1
  obtain ⟨n, p, hsing, hr⟩ := retaliate_single_kill w now hinv hh ha.2.1 ha.2.2
  have hcalls : ∀ ok : String → String → Bool,
      (retaliateExec w now false ok).2.2.1 = [(w.namespaceName, n)] := by
    intro ok
    unfold retaliateExec
    rw [hr]
    by_cases hok : ok w.namespaceName n
    · simp [killPodExec, hok]
    · simp [killPodExec, hok]
  refine ⟨?_, rfl, ?_, ?_, ?_, ?_, ?_, ?_⟩
  · show (retaliate w now).1 = true
    exact hacted
  · show (retaliate w now).2.1.podsStatus = w.podsStatus
    exact (retaliate_fields w now).2.1
  · show (retaliate w now).2.1.clusterState = w.clusterState
    exact (retaliate_fields w now).2.2.1
  · show (retaliate w now).2.1.podKilledCounter = w.podKilledCounter + 1
    rw [hr]
  · rw [hcalls deleteOk]
    rfl
  · intro deleteOk2
    exact ⟨rfl, rfl, (hcalls deleteOk2).trans (hcalls deleteOk).symm⟩
  · intro podName pod hseq hfail
    have hnp : n = podName ∧ p = pod := by
      rw [hsing] at hseq
      simpa using hseq
    obtain ⟨rfl, rfl⟩ := hnp
    unfold retaliateExec
    rw [hr]
    simp [killPodExec, hfail]

/-- Concrete application of retaliate_delete_failure_spec: with an
always-failing delete capability the example kill still returns true, issues
exactly one delete call, and records the failure as a log line. -/
theorem retaliate_delete_failure_spec_witness :
    (retaliateExec exampleWatcher 100 false (fun _ _ => false)).1 = true ∧
    (retaliateExec exampleWatcher 100 false (fun _ _ => false)).2.2.1.length = 1 ∧
    KillLogEntry.cannotKillPod "toto" "toto1"
      ∈ (retaliateExec exampleWatcher 100 false (fun _ _ => false)).2.2.2 := by
  have h := retaliate_delete_failure_spec exampleWatcher 100 (fun _ _ => false)
    (by decide) (by decide)
  exact ⟨h.1, h.2.2.2.2.2.1, h.2.2.2.2.2.2.2 "toto1" podPending (by decide) (by decide)⟩
